import Mathlib

/-!
Verification development for the command-orchestration core of the `m2p`
document-processing CLI (`crates/typst-cli/src/main.rs`).

The development shallowly embeds:
  * the Rust iterator `str::split(".")` together with its `.next()` call,
  * a filesystem model (association list from file names to contents) with
    the `fs::write`, `fs::remove_file` and `fs::rename` operations used by
    the shortcut-converter `main`,
  * the shortcut converter `main` itself, parameterized by the external
    `compile` and `fonts` collaborators,
  * the full-mode entry `origin_main` with its command router, the
    thread-local exit-status cell (`set_failed`), the error reporter and
    the tracing initializer's error handling,
  * the capability-gated `update` stub.
External collaborators (document compiler, watcher, query engine, font
enumerator, tracing backend) are parameters, per their `Result`-returning
interfaces.
-/

set_option maxRecDepth 8192

namespace M2P

/-! ### Rust `split(".")` -/

/-- Rust's `str::split(".")` on the underlying character list: splitting on a
single-character separator, where the empty input yields `[[]]`, matching
Rust's behavior that `split` always yields at least one (possibly empty)
segment. -/
def splitDotChars : List Char → List (List Char)
  | [] => [[]]
  | c :: cs =>
    if c = '.' then [] :: splitDotChars cs
    else
      match splitDotChars cs with
      | [] => [[c]]
      | a :: r => (c :: a) :: r

/-- Rust's `file_name.split(".")` as a list of string segments. -/
def split_dot (s : String) : List String :=
  (splitDotChars s.data).map (fun l => ⟨l⟩)

/-- Rust's `file_name.split(".").next()`: the first segment, if any. -/
def split_next (s : String) : Option String :=
  (split_dot s).head?

/-- The characters preceding the first `.`. -/
def takeUntilDot : List Char → List Char
  | [] => []
  | c :: cs => if c = '.' then [] else c :: takeUntilDot cs

/-- The substring of `s` preceding its first `.` (the whole of `s` when no
`.` occurs): the spec's "derived stem". -/
def stemStr (s : String) : String :=
  ⟨takeUntilDot s.data⟩

theorem splitDotChars_ne_nil (l : List Char) : splitDotChars l ≠ [] := by
  match l with
  | [] => simp [splitDotChars]
  | c :: cs =>
    simp only [splitDotChars]
    split
    · simp
    · match h : splitDotChars cs with
      | [] => simp
      | a :: r => simp

theorem splitDotChars_head (l : List Char) :
    (splitDotChars l).head? = some (takeUntilDot l) := by
  induction l with
  | nil => simp [splitDotChars, takeUntilDot]
  | cons c cs ih =>
    by_cases hc : c = '.'
    · simp [splitDotChars, takeUntilDot, hc]
    · simp only [splitDotChars, takeUntilDot, hc, if_false]
      match h : splitDotChars cs with
      | [] => exact absurd h (splitDotChars_ne_nil cs)
      | a :: r =>
        rw [h] at ih
        simp only [List.head?, Option.some.injEq] at ih ⊢
        exact congrArg (c :: ·) ih

/-- `split(".").next()` always produces the stem: the segment before the
first `.`. -/
theorem split_next_eq_stem (s : String) : split_next s = some (stemStr s) := by
  simp [split_next, split_dot, List.head?_map, splitDotChars_head, stemStr]

theorem takeUntilDot_no_dot (l : List Char) (h : '.' ∉ l) : takeUntilDot l = l := by
  induction l with
  | nil => rfl
  | cons c cs ih =>
    simp only [List.mem_cons, not_or] at h
    have hc : ¬(c = '.') := fun hc => h.1 hc.symm
    simp only [takeUntilDot, if_neg hc]
    exact congrArg (c :: ·) (ih h.2)

/-- When `s` has no `.`, the stem is all of `s`. -/
theorem split_next_no_dot (s : String) (h : '.' ∉ s.data) :
    split_next s = some s := by
  rw [split_next_eq_stem]
  simp only [stemStr, takeUntilDot_no_dot s.data h]

/-! ### Filesystem model -/

/-- The working directory: an association list from file name to contents.
Later entries are shadowed by earlier ones; the operations below keep names
unique. -/
abbrev FS := List (String × String)

/-- Contents of file `m`, if it exists. -/
def fsRead : FS → String → Option String
  | [], _ => none
  | (n, c) :: t, m => if n = m then some c else fsRead t m

/-- Whether file `m` exists. -/
def fsContains (fs : FS) (m : String) : Bool :=
  (fsRead fs m).isSome

/-- Remove every entry named `m`. -/
def fsErase : FS → String → FS
  | [], _ => []
  | (n, c) :: t, m => if n = m then fsErase t m else (n, c) :: fsErase t m

/-- `fs::write`: create or overwrite file `n` with contents `c`. In this
model a write never fails. -/
def fsWrite (fs : FS) (n c : String) : FS :=
  (n, c) :: fsErase fs n

/-- `fs::remove_file`: delete file `n`; an error if it does not exist. The
state is returned alongside the result, since a failed run leaves the
filesystem as it was at the point of failure. -/
def fsRemoveFile (fs : FS) (n : String) : FS × Except String Unit :=
  if fsContains fs n then (fsErase fs n, Except.ok ())
  else (fs, Except.error "remove_file failed")

/-- `fs::rename`: move file `src` to `dst` (overwriting `dst`); an error if
`src` does not exist. -/
def fsRename (fs : FS) (src dst : String) : FS × Except String Unit :=
  match fsRead fs src with
  | some c => (fsWrite (fsErase fs src) dst c, Except.ok ())
  | none => (fs, Except.error "rename failed")

theorem fsRead_fsErase (fs : FS) (n m : String) :
    fsRead (fsErase fs n) m = if m = n then none else fsRead fs m := by
  induction fs with
  | nil => simp [fsErase, fsRead]
  | cons p t ih =>
    obtain ⟨a, b⟩ := p
    simp only [fsErase]
    by_cases han : a = n
    · rw [if_pos han, ih]
      by_cases hmn : m = n
      · simp [hmn]
      · have ham : ¬(a = m) := fun h => hmn (han ▸ h.symm)
        simp [hmn, fsRead, ham]
    · rw [if_neg han]
      simp only [fsRead, ih]
      by_cases ham : a = m
      · subst ham
        simp [fsRead, han]
      · simp [fsRead, ham]

theorem fsRead_fsWrite (fs : FS) (n c m : String) :
    fsRead (fsWrite fs n c) m = if m = n then some c else fsRead fs m := by
  simp only [fsWrite, fsRead, fsRead_fsErase]
  by_cases h : n = m
  · subst h
    simp
  · have h2 : ¬(m = n) := fun hh => h hh.symm
    simp [h, h2]

theorem fsContains_fsWrite (fs : FS) (n c m : String) :
    fsContains (fsWrite fs n c) m = (m = n || fsContains fs m) := by
  simp only [fsContains, fsRead_fsWrite]
  by_cases h : m = n <;> simp [h]

theorem fsContains_fsErase (fs : FS) (n m : String) :
    fsContains (fsErase fs n) m = (!(m = n) && fsContains fs m) := by
  simp only [fsContains, fsRead_fsErase]
  by_cases h : m = n <;> simp [h]

theorem fsContains_read (fs : FS) (m : String) (h : fsContains fs m = true) :
    ∃ c, fsRead fs m = some c := by
  simpa [fsContains, Option.isSome_iff_exists] using h

/-! ### Command parameter records

`args.rs` is not part of the visible source; the records below model the
fields `main.rs` actually touches, everything else being collaborator-owned
and opaque. -/

/-- Modelled from the spec: the output-format selector of the compile
command (`args::OutputFormat`); `main.rs` fixes it to `Pdf`. -/
inductive OutputFormat where
  | Pdf
  | Png
  | Svg
deriving DecidableEq

/-- Modelled from the spec: the shared part of the compile command holding
the input path (`c.common.input`). -/
structure SharedArgs where
  input : String
deriving DecidableEq

/-- Modelled from the spec: the compile command record; `main.rs` sets
`common.input`, `output` and `format` on the default value. -/
structure CompileCommand where
  common : SharedArgs
  output : Option String
  format : Option OutputFormat
deriving DecidableEq

/-- `CompileCommand::default()`. -/
def CompileCommand.default : CompileCommand :=
  { common := { input := "" }, output := none, format := none }

/-- Modelled from the spec: the fonts command record, an opaque parameter
bundle owned by the font enumerator. -/
structure FontsCommand where
  raw : List String
deriving DecidableEq

/-- `FontsCommand::default()`. -/
def FontsCommand.default : FontsCommand := ⟨[]⟩

/-- Modelled from the spec: the watch command record, opaque. -/
structure WatchCommand where
  raw : List String

/-- Modelled from the spec: the query command record, opaque. -/
structure QueryCommand where
  raw : List String

/-- Modelled from the spec: the update command record, opaque. -/
structure UpdateCommand where
  raw : List String

/-! ### The shortcut converter (`main`) -/

/-- The fixed intermediate file name. -/
def tmp_file : String := "typst_inner_proc_intermediate_file"

/-- The synthesized document body: the `format!` template of `main.rs`,
parameterized by the font name and the input file name. -/
def synthDoc (font file_name : String) : String :=
  "\n        #import \"@preview/cmarker:0.1.0\"\n        #set text(font: \""
    ++ font
    ++ "\")\n        #cmarker.render(read(\""
    ++ file_name
    ++ "\"))\n    "

/-- The compile request built by `main`: `CompileCommand::default()` with
`common.input`, `output` and `format` set by the three `tap_mut` calls. -/
def mkCompileCommand (inp outp : String) : CompileCommand :=
  { CompileCommand.default with
      common := { input := inp }
      output := some outp
      format := some OutputFormat.Pdf }

/-- The shortcut converter `main`, parameterized by the external `compile`
and `fonts` collaborators. `compileC` both returns a result and may change
the filesystem (it produces the compiled output file); `fontsC` enumerates
system fonts and touches no file in the working directory, per its
interface. The returned pair is the final filesystem together with the
process-level result. -/
def mainRun (compileC : CompileCommand → FS → FS × Except String Unit)
    (fontsC : FontsCommand → Except String Unit)
    (argv : List String) (fs : FS) : FS × Except String Unit :=
  match argv.get? 1 with
  | none => (fs, Except.error "No file specified")
  | some file_name =>
    let font := (argv.get? 2).getD "HYKaiTiJ"
    match split_next file_name with
    | none => (fs, Except.error "File name error")
    | some input =>
      let inDoc := synthDoc font file_name
      if file_name = "fonts" then
        match fontsC FontsCommand.default with
        | Except.ok _ => (fs, Except.ok ())
        | Except.error e => (fs, Except.error e)
      else
        let fs1 := fsWrite fs tmp_file inDoc
        match compileC (mkCompileCommand tmp_file input) fs1 with
        | (fs2, Except.error e) => (fs2, Except.error e)
        | (fs2, Except.ok _) =>
          match fsRemoveFile fs2 tmp_file with
          | (fs3, Except.error e) => (fs3, Except.error e)
          | (fs3, Except.ok _) => fsRename fs3 input (input ++ ".pdf")

/-! ### Full mode: command router, exit status, tracing handling -/

/-- The parsed `Command` union: one tag per top-level operation, each
carrying its collaborator-owned parameter record. -/
inductive Command where
  | Compile (c : CompileCommand)
  | Watch (c : WatchCommand)
  | Query (c : QueryCommand)
  | Fonts (c : FontsCommand)
  | Update (c : UpdateCommand)

/-- The external collaborators invoked by the router, per their
`Result<(), Error>` interfaces. -/
structure Collab where
  compile : CompileCommand → Except String Unit
  watch : WatchCommand → Except String Unit
  query : QueryCommand → Except String Unit
  fonts : FontsCommand → Except String Unit
  update : UpdateCommand → Except String Unit

/-- The `match &ARGS.command { ... }` router of `origin_main`: dispatch on
the tag, invoke the corresponding collaborator, return its result. -/
def route (co : Collab) : Command → Except String Unit
  | Command.Compile c => co.compile c
  | Command.Watch c => co.watch c
  | Command.Query c => co.query c
  | Command.Fonts c => co.fonts c
  | Command.Update c => co.update c

/-- `std::process::ExitCode` as used here: `SUCCESS` or `FAILURE`. -/
inductive ExitCode where
  | success
  | failure
deriving DecidableEq

/-- The numeric process exit code. -/
def ExitCode.toNat : ExitCode → Nat
  | ExitCode.success => 0
  | ExitCode.failure => 1

/-- The process-wide mutable state of `origin_main`: the thread-local
`EXIT` cell and the standard error stream (as the list of lines written). -/
structure ProcState where
  exit : ExitCode
  stderr : List String
deriving DecidableEq

/-- `set_failed`: set the `EXIT` cell to `FAILURE`. -/
def set_failed (s : ProcState) : ProcState :=
  { s with exit := ExitCode.failure }

/-- `print_error`: write `error: {msg}.` to the standard error stream
(color handling is presentation-only and not modelled). -/
def print_error (msg : String) (s : ProcState) : ProcState :=
  { s with stderr := s.stderr ++ ["error: " ++ msg ++ "."] }

/-- What `origin_main` produces: the exit code read from the `EXIT` cell,
the standard error output, and whether a tracing guard is held. -/
structure RunOut where
  exit : ExitCode
  stderr : List String
  guardHeld : Bool
deriving DecidableEq

/-- The full-mode entry `origin_main`, parameterized by the outcome of
`setup_tracing` (a `Result<Option<Guard>>`, guard modelled as `Unit`), the
collaborators, and the parsed command. A tracing failure prints a warning
line to standard error and continues with no guard; the router result, if
an error, marks the exit cell failed and is rendered by the reporter. -/
def origin_main (tr : Except String (Option Unit)) (co : Collab)
    (cmd : Command) : RunOut :=
  let guard : Option Unit :=
    match tr with
    | Except.ok g => g
    | Except.error _ => none
  let pre : List String :=
    match tr with
    | Except.ok _ => []
    | Except.error err => ["failed to initialize tracing (" ++ err ++ ")"]
  let st0 : ProcState := { exit := ExitCode.success, stderr := pre }
  let st1 : ProcState :=
    match route co cmd with
    | Except.ok _ => st0
    | Except.error msg => print_error msg (set_failed st0)
  { exit := st1.exit, stderr := st1.stderr, guardHeld := guard.isSome }

/-! ### The capability-gated update stub -/

/-- The fixed message of the update stub (the `bail!` string, with Rust's
line-continuation backslashes resolved). -/
def updateMessage : String :=
  "self-updating is not enabled for this executable, please update with "
    ++ "the package manager or mechanism used for initial installation"

/-- The `update` handler compiled when the `self-update` feature is
disabled: ignore the parameters, fail with the fixed message. -/
def update (_ : UpdateCommand) : Except String Unit :=
  Except.error updateMessage

/-! ### Concrete fixtures used by witnesses and counterexamples -/

/-- An empty working directory. -/
def fsEmpty : FS := []

/-- A concrete well-behaved compiler: writes the requested output file
(contents `"PDF"`) and succeeds. -/
def compileC0 (cc : CompileCommand) (fs : FS) : FS × Except String Unit :=
  (fsWrite fs (cc.output.getD "") "PDF", Except.ok ())

/-- A concrete well-behaved font enumerator: succeeds. -/
def fontsC0 (_ : FontsCommand) : Except String Unit :=
  Except.ok ()

/-- A concrete failing compiler: touches nothing, reports an error. -/
def compileFailC (_ : CompileCommand) (fs : FS) : FS × Except String Unit :=
  (fs, Except.error "compile failed")

/-! ### Helper lemmas about `mainRun` -/

/-- Provenance of every error the shortcut converter can return: the
missing-argument check, a collaborator, or a filesystem operation. Notably
`"File name error"` is absent: that branch contributes no error of its
own. -/
theorem mainRun_error_sources (compileC : CompileCommand → FS → FS × Except String Unit)
    (fontsC : FontsCommand → Except String Unit)
    (argv : List String) (fs : FS) (e : String)
    (h : (mainRun compileC fontsC argv fs).2 = Except.error e) :
    e = "No file specified" ∨
      (∃ cc f1, (compileC cc f1).2 = Except.error e) ∨
      fontsC FontsCommand.default = Except.error e ∨
      e = "remove_file failed" ∨ e = "rename failed" := by
  unfold mainRun at h
  split at h
  · exact Or.inl (by simpa using h.symm)
  · rename_i file_name heq1
    rw [split_next_eq_stem] at h
    simp only at h
    by_cases hf : file_name = "fonts"
    · rw [if_pos hf] at h
      split at h
      · simp at h
      · rename_i e2 heq2
        refine Or.inr (Or.inr (Or.inl ?_))
        have he : e2 = e := by simpa using h
        rw [heq2, he]
    · rw [if_neg hf] at h
      split at h
      · rename_i fs2 e2 heq2
        refine Or.inr (Or.inl ⟨mkCompileCommand tmp_file (stemStr file_name),
          fsWrite fs tmp_file (synthDoc ((argv.get? 2).getD "HYKaiTiJ") file_name), ?_⟩)
        rw [heq2]
        simpa using h
      · rename_i fs2 u heq2
        split at h
        · rename_i fs3 e3 heq3
          unfold fsRemoveFile at heq3
          split at heq3
          · simp at heq3
          · simp only [Prod.mk.injEq] at heq3
            refine Or.inr (Or.inr (Or.inr (Or.inl ?_)))
            have he : e3 = e := by simpa using h
            have h4 : "remove_file failed" = e3 := by simpa using heq3.2
            rw [← he, ← h4]
        · rename_i fs3 u3 heq3
          unfold fsRename at h
          split at h
          · simp at h
          · refine Or.inr (Or.inr (Or.inr (Or.inr ?_)))
            simpa using h.symm

/-- The success path of the shortcut converter on a two-element argument
vector: with the default font, a compiler that succeeds and leaves both the
intermediate file and its output `stem` in place, the run succeeds, the
intermediate file is gone, and `stem ++ ".pdf"` exists. -/
theorem mainRun_success_shape (compileC : CompileCommand → FS → FS × Except String Unit)
    (fontsC : FontsCommand → Except String Unit)
    (p file_name stem : String) (fs fs2 : FS)
    (hstem : split_next file_name = some stem)
    (hnf : ¬(file_name = "fonts"))
    (hc : compileC (mkCompileCommand tmp_file stem)
        (fsWrite fs tmp_file (synthDoc "HYKaiTiJ" file_name)) = (fs2, Except.ok ()))
    (htmp : fsContains fs2 tmp_file = true)
    (hout : fsContains fs2 stem = true)
    (hst : ¬(stem = tmp_file))
    (hpdf : ¬(tmp_file = stem ++ ".pdf")) :
    (mainRun compileC fontsC [p, file_name] fs).2 = Except.ok () ∧
    fsContains (mainRun compileC fontsC [p, file_name] fs).1 tmp_file = false ∧
    fsContains (mainRun compileC fontsC [p, file_name] fs).1 (stem ++ ".pdf") = true := by
  obtain ⟨c, hcread⟩ := fsContains_read fs2 stem hout
  have hread3 : fsRead (fsErase fs2 tmp_file) stem = some c := by
    rw [fsRead_fsErase, if_neg hst, hcread]
  have hmain : mainRun compileC fontsC [p, file_name] fs
      = (fsWrite (fsErase (fsErase fs2 tmp_file) stem) (stem ++ ".pdf") c,
          Except.ok ()) := by
    unfold mainRun
    simp only [List.get?, Option.getD, hstem, if_neg hnf, hc,
      fsRemoveFile, htmp, if_true, fsRename, hread3]
  rw [hmain]
  refine ⟨rfl, ?_, ?_⟩
  · rw [fsContains_fsWrite, fsContains_fsErase, fsContains_fsErase]
    simp [hpdf]
  · rw [fsContains_fsWrite]
    simp

/-- The fonts special case: with `argv[1] = "fonts"`, `main` hands control
to the font enumerator with default parameters and returns its result, the
filesystem untouched. -/
theorem mainRun_fonts_case (compileC : CompileCommand → FS → FS × Except String Unit)
    (fontsC : FontsCommand → Except String Unit)
    (argv : List String) (fs : FS)
    (h1 : argv.get? 1 = some "fonts") :
    mainRun compileC fontsC argv fs = (fs, fontsC FontsCommand.default) := by
  unfold mainRun
  rw [h1]
  simp only [split_next_eq_stem, if_pos rfl]
  cases hfc : fontsC FontsCommand.default with
  | ok u =>
    cases u
    simp [hfc]
  | error e => simp [hfc]

/-! ### The claims -/

/-- Claim C7: for every argument vector with no second element, the
shortcut converter fails with the "No file specified" error and returns the
filesystem untouched (no write happens before the check). -/
theorem missing_file_name_errors
    (compileC : CompileCommand → FS → FS × Except String Unit)
    (fontsC : FontsCommand → Except String Unit)
    (argv : List String) (fs : FS)
    (h : argv.get? 1 = none) :
    mainRun compileC fontsC argv fs = (fs, Except.error "No file specified") := by
  unfold mainRun
  rw [h]

/-- Claim C7, instantiated: the bare invocation `m2p` fails with "No file
specified" and leaves the empty working directory empty. -/
theorem missing_file_name_errors_witness :
    mainRun compileC0 fontsC0 ["m2p"] fsEmpty
      = (fsEmpty, Except.error "No file specified") :=
  missing_file_name_errors compileC0 fontsC0 ["m2p"] fsEmpty rfl

/-- Claim C1, counterexample: on the dot-free input file name `report` the
shortcut converter does not fail at all — with a well-behaved compiler it
succeeds and writes `report.pdf` — refuting "fails with a file-name error
and performs no filesystem writes". -/
theorem no_dot_counterexample :
    '.' ∉ "report".data ∧
    mainRun compileC0 fontsC0 ["m2p", "report"] fsEmpty
      = ([("report.pdf", "PDF")], Except.ok ()) := by
  constructor
  · decide
  · rfl

/-- Claim C1 as amended: for a file name with no `.`, `split(".").next()`
returns the whole name as the stem, so the converter never fails with the
"File name error" message (its errors can only originate in the missing
argument check, a collaborator, or a filesystem operation). -/
theorem no_dot_stem_is_whole_name (s : String) (h : '.' ∉ s.data)
    (compileC : CompileCommand → FS → FS × Except String Unit)
    (fontsC : FontsCommand → Except String Unit)
    (argv : List String) (fs : FS)
    (hcp : ∀ cc f1, (compileC cc f1).2 ≠ Except.error "File name error")
    (hf : fontsC FontsCommand.default ≠ Except.error "File name error") :
    split_next s = some s ∧
    (mainRun compileC fontsC argv fs).2 ≠ Except.error "File name error" := by
  refine ⟨split_next_no_dot s h, fun hh => ?_⟩
  rcases mainRun_error_sources compileC fontsC argv fs _ hh with
    h1 | ⟨cc, f1, h2⟩ | h3 | h4 | h5
  · exact absurd h1 (by decide)
  · exact hcp cc f1 h2
  · exact hf h3
  · exact absurd h4 (by decide)
  · exact absurd h5 (by decide)

/-- Claim C1 as amended, instantiated at the dot-free name `report` with
well-behaved collaborators. -/
theorem no_dot_stem_is_whole_name_witness :
    split_next "report" = some "report" ∧
    (mainRun compileC0 fontsC0 ["m2p", "report"] fsEmpty).2
      ≠ Except.error "File name error" :=
  no_dot_stem_is_whole_name "report" (by decide) compileC0 fontsC0
    ["m2p", "report"] fsEmpty
    (fun cc f1 => by simp [compileC0])
    (by simp [fontsC0])

/-- Claim C10: splitting the file name on `.` always yields a first
segment — the prefix before the first dot, the whole name when no dot is
present — so the "File name error" branch of `main` is unreachable: unless
a collaborator itself reports that exact message, the run never returns
it. -/
theorem stem_computation_total (s : String)
    (compileC : CompileCommand → FS → FS × Except String Unit)
    (fontsC : FontsCommand → Except String Unit)
    (argv : List String) (fs : FS)
    (h1 : argv.get? 1 = some s)
    (hcp : ∀ cc f1, (compileC cc f1).2 ≠ Except.error "File name error")
    (hf : fontsC FontsCommand.default ≠ Except.error "File name error") :
    split_next s = some (stemStr s) ∧
    ('.' ∉ s.data → stemStr s = s) ∧
    (mainRun compileC fontsC argv fs).2 ≠ Except.error "File name error" := by
  refine ⟨split_next_eq_stem s, ?_, fun hh => ?_⟩
  · intro hnd
    simp only [stemStr, takeUntilDot_no_dot s.data hnd]
  · rcases mainRun_error_sources compileC fontsC argv fs _ hh with
      h2 | ⟨cc, f1, h3⟩ | h4 | h5 | h6
    · exact absurd h2 (by decide)
    · exact hcp cc f1 h3
    · exact hf h4
    · exact absurd h5 (by decide)
    · exact absurd h6 (by decide)

/-- Claim C10, instantiated at `report.md` with well-behaved
collaborators. -/
theorem stem_computation_total_witness :
    split_next "report.md" = some (stemStr "report.md") ∧
    ('.' ∉ "report.md".data → stemStr "report.md" = "report.md") ∧
    (mainRun compileC0 fontsC0 ["m2p", "report.md"] fsEmpty).2
      ≠ Except.error "File name error" :=
  stem_computation_total "report.md" compileC0 fontsC0 ["m2p", "report.md"]
    fsEmpty rfl (fun cc f1 => by simp [compileC0]) (by simp [fontsC0])

/-- Claim C2: the intermediate file is deleted only after a successful
compile. If the compile collaborator fails, its error is returned as the
run's result before the cleanup step, and the intermediate file written in
step 5 is still present in the final filesystem state. -/
theorem compile_failure_leaves_intermediate
    (compileC : CompileCommand → FS → FS × Except String Unit)
    (fontsC : FontsCommand → Except String Unit)
    (p file_name stem e : String) (fs fs2 : FS)
    (hstem : split_next file_name = some stem)
    (hnf : ¬(file_name = "fonts"))
    (hc : compileC (mkCompileCommand tmp_file stem)
        (fsWrite fs tmp_file (synthDoc "HYKaiTiJ" file_name)) = (fs2, Except.error e))
    (htmp : fsContains fs2 tmp_file = true) :
    mainRun compileC fontsC [p, file_name] fs = (fs2, Except.error e) ∧
    fsContains (mainRun compileC fontsC [p, file_name] fs).1 tmp_file = true := by
  have hmain : mainRun compileC fontsC [p, file_name] fs = (fs2, Except.error e) := by
    unfold mainRun
    simp only [List.get?, Option.getD, hstem, if_neg hnf, hc]
  exact ⟨hmain, by rw [hmain]; exact htmp⟩

/-- Claim C2, instantiated with a failing compiler on `report.md`: the
error propagates and `typst_inner_proc_intermediate_file` is left on
disk. -/
theorem compile_failure_leaves_intermediate_witness :
    mainRun compileFailC fontsC0 ["m2p", "report.md"] fsEmpty
      = (fsWrite fsEmpty tmp_file (synthDoc "HYKaiTiJ" "report.md"),
          Except.error "compile failed") ∧
    fsContains (mainRun compileFailC fontsC0 ["m2p", "report.md"] fsEmpty).1
      tmp_file = true :=
  compile_failure_leaves_intermediate compileFailC fontsC0 "m2p" "report.md"
    "report" "compile failed" fsEmpty
    (fsWrite fsEmpty tmp_file (synthDoc "HYKaiTiJ" "report.md"))
    rfl (by decide) rfl (by decide)

/-- Claim C4: on input `report.md` with no font argument, the synthesized
document embeds the default font name `HYKaiTiJ` and the literal path
`report.md` (the compile hypothesis pins the written intermediate content
to exactly `synthDoc "HYKaiTiJ" "report.md"`); after a successful run the
intermediate file does not exist and `report.pdf` does. -/
theorem default_font_report_run
    (compileC : CompileCommand → FS → FS × Except String Unit)
    (fontsC : FontsCommand → Except String Unit) (fs fs2 : FS)
    (hc : compileC (mkCompileCommand tmp_file "report")
        (fsWrite fs tmp_file (synthDoc "HYKaiTiJ" "report.md")) = (fs2, Except.ok ()))
    (htmp : fsContains fs2 tmp_file = true)
    (hout : fsContains fs2 "report" = true) :
    ("HYKaiTiJ".data <:+: (synthDoc "HYKaiTiJ" "report.md").data) ∧
    ("report.md".data <:+: (synthDoc "HYKaiTiJ" "report.md").data) ∧
    (mainRun compileC fontsC ["m2p", "report.md"] fs).2 = Except.ok () ∧
    fsContains (mainRun compileC fontsC ["m2p", "report.md"] fs).1 tmp_file = false ∧
    fsContains (mainRun compileC fontsC ["m2p", "report.md"] fs).1 "report.pdf" = true := by
  have h := mainRun_success_shape compileC fontsC "m2p" "report.md" "report"
    fs fs2 rfl (by decide) hc htmp hout (by decide) (by decide)
  refine ⟨by decide, by decide, h.1, h.2.1, ?_⟩
  have hx : "report" ++ ".pdf" = "report.pdf" := rfl
  rw [← hx]
  exact h.2.2

/-- Claim C4, instantiated with a well-behaved compiler on the empty
working directory. -/
theorem default_font_report_run_witness :
    ("HYKaiTiJ".data <:+: (synthDoc "HYKaiTiJ" "report.md").data) ∧
    ("report.md".data <:+: (synthDoc "HYKaiTiJ" "report.md").data) ∧
    (mainRun compileC0 fontsC0 ["m2p", "report.md"] fsEmpty).2 = Except.ok () ∧
    fsContains (mainRun compileC0 fontsC0 ["m2p", "report.md"] fsEmpty).1
      tmp_file = false ∧
    fsContains (mainRun compileC0 fontsC0 ["m2p", "report.md"] fsEmpty).1
      "report.pdf" = true :=
  default_font_report_run compileC0 fontsC0 fsEmpty
    (fsWrite (fsWrite fsEmpty tmp_file (synthDoc "HYKaiTiJ" "report.md"))
      "report" "PDF")
    rfl (by decide) (by decide)

/-- Claim C5: for every file name containing a `.`, the derived stem is the
substring before the first `.` (for `x.y.md` the stem is `x`), and on the
success path the compiler's output, named exactly by the stem, is renamed
to `x.pdf`. -/
theorem stem_first_dot_and_output (s : String)
    (compileC : CompileCommand → FS → FS × Except String Unit)
    (fontsC : FontsCommand → Except String Unit) (fs fs2 : FS)
    (hdot : '.' ∈ s.data)
    (hc : compileC (mkCompileCommand tmp_file "x")
        (fsWrite fs tmp_file (synthDoc "HYKaiTiJ" "x.y.md")) = (fs2, Except.ok ()))
    (htmp : fsContains fs2 tmp_file = true)
    (hout : fsContains fs2 "x" = true) :
    split_next s = some (stemStr s) ∧
    split_next "x.y.md" = some "x" ∧
    (mainRun compileC fontsC ["m2p", "x.y.md"] fs).2 = Except.ok () ∧
    fsContains (mainRun compileC fontsC ["m2p", "x.y.md"] fs).1 "x.pdf" = true := by
  have h := mainRun_success_shape compileC fontsC "m2p" "x.y.md" "x"
    fs fs2 rfl (by decide) hc htmp hout (by decide) (by decide)
  refine ⟨split_next_eq_stem s, rfl, h.1, ?_⟩
  have hx : "x" ++ ".pdf" = "x.pdf" := rfl
  rw [← hx]
  exact h.2.2

/-- Claim C5, instantiated at `x.y.md` with a well-behaved compiler. -/
theorem stem_first_dot_and_output_witness :
    split_next "x.y.md" = some (stemStr "x.y.md") ∧
    split_next "x.y.md" = some "x" ∧
    (mainRun compileC0 fontsC0 ["m2p", "x.y.md"] fsEmpty).2 = Except.ok () ∧
    fsContains (mainRun compileC0 fontsC0 ["m2p", "x.y.md"] fsEmpty).1
      "x.pdf" = true :=
  stem_first_dot_and_output "x.y.md" compileC0 fontsC0 fsEmpty
    (fsWrite (fsWrite fsEmpty tmp_file (synthDoc "HYKaiTiJ" "x.y.md")) "x" "PDF")
    (by decide) rfl (by decide) (by decide)

/-- Claim C6: when `argv[1]` is exactly `"fonts"`, `main` does not treat it
as a file: it invokes the font enumerator with default parameters and
returns that collaborator's result (success in the normal case), with the
filesystem returned untouched — no file written, no intermediate file
created or deleted. -/
theorem fonts_special_case
    (compileC : CompileCommand → FS → FS × Except String Unit)
    (fontsC : FontsCommand → Except String Unit)
    (argv : List String) (fs : FS)
    (h1 : argv.get? 1 = some "fonts") :
    mainRun compileC fontsC argv fs = (fs, fontsC FontsCommand.default) :=
  mainRun_fonts_case compileC fontsC argv fs h1

/-- Claim C6, instantiated: `m2p fonts` with a succeeding enumerator
returns success and the empty directory stays empty. -/
theorem fonts_special_case_witness :
    mainRun compileC0 fontsC0 ["m2p", "fonts"] fsEmpty
      = (fsEmpty, fontsC0 FontsCommand.default) :=
  fonts_special_case compileC0 fontsC0 ["m2p", "fonts"] fsEmpty rfl

/-- Claim C3: in full mode each `Command` variant routes to exactly its own
collaborator, the result is returned untransformed, and the final exit
status reflects it: a success gives exit code 0, a failure exit code 1. -/
theorem router_dispatch_and_exit (co : Collab) (tr : Except String (Option Unit)) :
    (∀ c, route co (Command.Compile c) = co.compile c) ∧
    (∀ c, route co (Command.Watch c) = co.watch c) ∧
    (∀ c, route co (Command.Query c) = co.query c) ∧
    (∀ c, route co (Command.Fonts c) = co.fonts c) ∧
    (∀ c, route co (Command.Update c) = co.update c) ∧
    (∀ cmd, (origin_main tr co cmd).exit.toNat =
      match route co cmd with
      | Except.ok _ => 0
      | Except.error _ => 1) := by
  refine ⟨fun c => rfl, fun c => rfl, fun c => rfl, fun c => rfl, fun c => rfl,
    fun cmd => ?_⟩
  unfold origin_main
  cases route co cmd with
  | ok u => simp [ExitCode.toNat]
  | error msg => simp [set_failed, print_error, ExitCode.toNat]

/-- Claim C8: with the self-update capability not compiled in, `update`
fails with the one fixed explanatory message for every parameter value, and
any two parameter values produce the identical result. -/
theorem update_stub_fixed_failure (c c' : UpdateCommand) :
    update c = Except.error updateMessage ∧ update c = update c' :=
  ⟨rfl, rfl⟩

/-- Claim C9: a tracing-initialization failure never changes the final exit
status and never prevents the routed command from running: compared with
the tracing-success run, the exit code is identical, no guard is held, and
the standard error output is the same except for one warning line prepended
by the failure. -/
theorem tracing_failure_harmless (e : String) (g : Option Unit)
    (co : Collab) (cmd : Command) :
    (origin_main (Except.error e) co cmd).exit
      = (origin_main (Except.ok g) co cmd).exit ∧
    (origin_main (Except.error e) co cmd).guardHeld = false ∧
    (origin_main (Except.error e) co cmd).stderr
      = ("failed to initialize tracing (" ++ e ++ ")")
          :: (origin_main (Except.ok g) co cmd).stderr := by
  unfold origin_main
  cases route co cmd with
  | ok u => simp
  | error msg => simp [set_failed, print_error]

end M2P
